import Mathlib

/-!
Verification of the PhotoVault smart-capture pipeline
(src/static/js/dashboard.js, class PhotoVaultDashboard).

The development shallowly embeds the camera pipeline: exact rational
arithmetic stands in for JavaScript floating point, grayscale frames are
lists of natural-number pixel values, the OpenCV primitives that the code
merely orchestrates (polygon approximation, perspective warp) are function
parameters, and the event-driven mutable state of the dashboard object is
explicit state passing over a `DashState` record.
-/

namespace PhotoVault

/-- Point2D with exact rational coordinates (dashboard.js uses `{x, y}`
objects; corners extracted from `data32S` are integers, and the centroid
introduces quarters, both exactly representable in `ℚ`). -/
structure Point where
  x : ℚ
  y : ℚ
deriving DecidableEq, Repr

instance : Inhabited Point := ⟨⟨0, 0⟩⟩

/-- Vector from `c` to `p`: the `a.x - centerX` / `a.y - centerY` operands
of the comparator in `sortCorners` (dashboard.js lines 938-942). -/
def pvsub (p c : Point) : Point := ⟨p.x - c.x, p.y - c.y⟩

/-- 2D cross product of two vectors. -/
def cross (u v : Point) : ℚ := u.x * v.y - u.y * v.x

/-- Band number of a vector according to the value of
`Math.atan2 y x`, whose range is `(-pi, pi]`:
band 0 is `y < 0` (angles in `(-pi, 0)`), band 1 is `y = 0 ∧ 0 ≤ x`
(angle `0`; `atan2 0 0 = 0` as well), band 2 is `0 < y`
(angles in `(0, pi)`), band 3 is `y = 0 ∧ x < 0` (angle `pi`).
Band numbers are ordered exactly as the corresponding angle values. -/
def halfId (u : Point) : ℕ :=
  if u.y < 0 then 0
  else if u.y = 0 ∧ 0 ≤ u.x then 1
  else if 0 < u.y then 2
  else 3

/-- Exact embedding of the comparator
`Math.atan2 (a.y - cy) (a.x - cx) - Math.atan2 (b.y - cy) (b.x - cx) < 0`
of `sortCorners` (dashboard.js lines 938-942): the atan2 value of `p - c`
is strictly smaller than that of `q - c`.  Across bands the atan2 order is
the band order; within band 0 or band 2 both vectors lie in an open
half-plane, where `atan2` ascends counterclockwise, so the strict order is
a positive cross product; within bands 1 and 3 the two angles are equal
(and there the cross product is `0`, so the same formula applies). -/
def angleLt (c p q : Point) : Prop :=
  halfId (pvsub p c) < halfId (pvsub q c) ∨
    (halfId (pvsub p c) = halfId (pvsub q c) ∧ 0 < cross (pvsub p c) (pvsub q c))

instance (c p q : Point) : Decidable (angleLt c p q) := by
  unfold angleLt; infer_instance

/-- Non-strict atan2 order: the comparator does not report `q` strictly
before `p`.  `Array.prototype.sort` with a consistent comparator produces
the stable sort by this total preorder. -/
def angleLe (c p q : Point) : Prop := ¬ angleLt c q p

instance (c p q : Point) : Decidable (angleLe c p q) := by
  unfold angleLe; infer_instance

/-- Two points have exactly the same atan2 angle around `c` (a tie of the
`sortCorners` comparator). -/
def angleTie (c p q : Point) : Prop :=
  halfId (pvsub p c) = halfId (pvsub q c) ∧ cross (pvsub p c) (pvsub q c) = 0

instance (c p q : Point) : Decidable (angleTie c p q) := by
  unfold angleTie; infer_instance

/-- Proof device for reasoning about the atan2 order: within one band, the
atan2 angle of a vector is strictly monotone in `-x / y` (with the Lean
convention `q / 0 = 0` collapsing the constant-angle bands 1 and 3 to a
constant key). -/
def slopeKey (u : Point) : ℚ := -u.x / u.y

/-- Centroid of the corner list: `sorted.reduce((sum, p) => sum + p.x, 0) / 4`
and likewise for `y` (dashboard.js lines 934-935; the divisor is the
literal `4`, not the list length). -/
def centroid (l : List Point) : Point :=
  ⟨(l.map Point.x).sum / 4, (l.map Point.y).sum / 4⟩

/-- The `x + y` corner score used to pick the top-left anchor
(dashboard.js lines 947-955). -/
def cornerSum (p : Point) : ℚ := p.x + p.y

/-- Index of the first entry of `l` minimizing `x + y`: the
`for (let i = 1; i < 4; i++) if (sum < minSum) ...` loop of `sortCorners`
(dashboard.js lines 946-955); `minSum` always equals the score of the
current best index, and a strict `<` keeps the earliest minimizer. -/
def minSumIdx (l : List Point) : ℕ :=
  [1, 2, 3].foldl
    (fun best i =>
      if cornerSum (l.getD i default) < cornerSum (l.getD best default) then i
      else best) 0

/-- `sortCorners` (dashboard.js lines 929-963): copy the input, stably sort
it by ascending atan2 angle around the centroid, find the first angular
position whose point minimizes `x + y`, and rotate the sorted list so that
point comes first, yielding the order top-left, top-right, bottom-right,
bottom-left.  The stable JavaScript `Array.prototype.sort` is embedded as
`List.insertionSort` over the non-strict comparator order. -/
def sortCorners (corners : List Point) : List Point :=
  let c := centroid corners
  let sorted := List.insertionSort (angleLe c) corners
  let topLeft := minSumIdx sorted
  [sorted.getD topLeft default,
   sorted.getD ((topLeft + 1) % 4) default,
   sorted.getD ((topLeft + 2) % 4) default,
   sorted.getD ((topLeft + 3) % 4) default]

/-! ### Edge/contour detection (detectPhotoEdges, lines 427-521) -/

/-- Tunable constants as hard-coded in dashboard.js. -/
def edgeMinArea : ℚ := 5000

/-- Motion threshold (dashboard.js line 265). -/
def motionThreshold : ℕ := 5000

/-- Frames of stability needed for the steady status (line 267). -/
def stabilityRequiredFrames : ℕ := 10

/-- An extracted contour, as consumed by the selection loop of
`detectPhotoEdges`: its `cv.contourArea` and its `cv.arcLength` perimeter.
The contour pixels themselves are only ever passed to the external
`cv.approxPolyDP` primitive, which the embedding takes as a function
parameter. -/
structure Contour where
  area : ℚ
  perimeter : ℚ
deriving DecidableEq, Repr

/-- Epsilon of the polygon approximation: `0.02 * cv.arcLength(contour, true)`
(dashboard.js line 482). -/
def polyEpsilonOf (c : Contour) : ℚ := 2 / 100 * c.perimeter

/-- The contour-selection loop of `detectPhotoEdges` (dashboard.js lines
472-493), with accumulator `(largestArea, bestContour)` starting at
`(0, null)`: a contour is considered when `area > largestArea && area > 5000`;
it is then polygon-approximated at epsilon 2% of its perimeter by the
external `approxDP` primitive, and accepted (updating both accumulator
components) exactly when the approximation has 4 vertices. -/
def detectLoop (approxDP : Contour → ℚ → List Point) :
    List Contour → ℚ → Option (List Point) → Option (List Point)
  | [], _, best => best
  | c :: rest, largestArea, best =>
      if c.area > largestArea ∧ c.area > edgeMinArea then
        let approx := approxDP c (polyEpsilonOf c)
        if approx.length = 4 then detectLoop approxDP rest c.area (some approx)
        else detectLoop approxDP rest largestArea best
      else detectLoop approxDP rest largestArea best

/-- `detectPhotoEdges`'s best-contour result for one tick: the polygon kept
in `bestContour` after the loop, or `none` when no contour was accepted
(dashboard.js lines 472-500). -/
def detectPhotoEdgesBest (approxDP : Contour → ℚ → List Point)
    (contours : List Contour) : Option (List Point) :=
  detectLoop approxDP contours 0 none

/-- Modelled from the spec: a contour qualifies when its area strictly
exceeds the minimum-area threshold and its polygon approximation at
epsilon = 2% of its perimeter has exactly 4 vertices. -/
def qualifiesB (approxDP : Contour → ℚ → List Point) (c : Contour) : Bool :=
  decide (edgeMinArea < c.area) && decide ((approxDP c (polyEpsilonOf c)).length = 4)

/-- Modelled from the spec: the single largest qualifying contour, ties
broken by the first such contour in traversal order — the first contour
that qualifies and whose area is at least the area of every qualifying
contour of the frame. -/
def specBestContour (approxDP : Contour → ℚ → List Point)
    (contours : List Contour) : Option Contour :=
  contours.find? fun c =>
    qualifiesB approxDP c &&
      contours.all fun d => !qualifiesB approxDP d || decide (d.area ≤ c.area)

/-- Proof device: the first contour of `l` that qualifies, has area
strictly above `A`, and is not strictly beaten by any later qualifying
contour (the recursion raises the threshold to the running best, so a
later contour wins only by strictly exceeding it). -/
def firstMaxAbove (approxDP : Contour → ℚ → List Point) :
    List Contour → ℚ → Option Contour
  | [], _ => none
  | c :: rest, A =>
      if qualifiesB approxDP c = true ∧ A < c.area then
        some ((firstMaxAbove approxDP rest c.area).getD c)
      else firstMaxAbove approxDP rest A

/-- Proof device: the find? predicate selecting the first qualifying
contour above threshold `A` that is maximal among the qualifying contours
of `l` above `A`. -/
def aboveMaxPred (approxDP : Contour → ℚ → List Point) (l : List Contour)
    (A : ℚ) (e : Contour) : Bool :=
  qualifiesB approxDP e && decide (A < e.area) &&
    l.all fun d =>
      !(qualifiesB approxDP d && decide (A < d.area)) || decide (d.area ≤ e.area)

/-! ### Motion and stability tracking (analyzeMotionAndStability, lines
1235-1279) and the dashboard state -/

/-- Absolute difference of two pixel values (`cv.absdiff`). -/
def natAbsDiff (a b : ℕ) : ℕ := ((a : ℤ) - (b : ℤ)).natAbs

/-- `cv.sumElems(diff)[0]` for the absolute difference of two grayscale
frames: the sum of all per-pixel absolute differences (dashboard.js lines
1244-1249). -/
def motionLevelOf (g prev : List ℕ) : ℕ :=
  (List.zipWith natAbsDiff g prev).sum

/-- The mutable smart-camera state of the dashboard object that the
pipeline reads and writes across ticks (constructor lines 244-267).
`cornersAge` is a specification ghost variable, not a source field: it
counts the detection ticks elapsed since `lastDetectedCorners` was last
refreshed, and is needed to state freshness/staleness claims. -/
structure DashState where
  lastDetectedCorners : Option (List Point)
  cornersAge : ℕ
  lastFrameData : Option (List ℕ)
  hasMotion : Bool
  stabilityFrames : ℕ
  isStable : Bool
  cameraOn : Bool
deriving DecidableEq, Repr

/-- The state set up by the constructor on page load (dashboard.js lines
249 and 262-267). -/
def initState : DashState :=
  { lastDetectedCorners := none
    cornersAge := 0
    lastFrameData := none
    hasMotion := false
    stabilityFrames := 0
    isStable := false
    cameraOn := false }

/-- `analyzeMotionAndStability` (dashboard.js lines 1235-1279) acting on a
grayscale frame `g`.  With a previous frame: sum the absolute pixel
differences into `motionLevel`, set `hasMotion = motionLevel > 5000`; on
motion reset `stabilityFrames` to 0 and `isStable` to false, otherwise
increment `stabilityFrames` and set `isStable` to true once the counter
reaches `stabilityRequiredFrames` (leaving it untouched below the bound).
Without a previous frame the whole analysis is skipped.  In both cases the
current frame is stored as the single-slot previous frame (lines
1268-1272). -/
def analyzeMotionAndStability (s : DashState) (g : List ℕ) : DashState :=
  match s.lastFrameData with
  | none => { s with lastFrameData := some g }
  | some prev =>
      let motionLevel := motionLevelOf g prev
      if motionLevel > motionThreshold then
        { s with hasMotion := true
                 stabilityFrames := 0
                 isStable := false
                 lastFrameData := some g }
      else
        let sf := s.stabilityFrames + 1
        { s with hasMotion := false
                 stabilityFrames := sf
                 isStable := if sf ≥ stabilityRequiredFrames then true else s.isStable
                 lastFrameData := some g }

/-- Events driving the dashboard pipeline: a detection tick (carrying the
contours that `cv.findContours` extracted from the tick's frame, plus the
frame's grayscale data), stopping the camera and starting it.  Captures
are modelled separately as pure reads of the state. -/
inductive Event where
  | tick (contours : List Contour) (gray : List ℕ)
  | stop
  | start
deriving DecidableEq, Repr

/-- One event step.  A tick (detectPhotoEdges, lines 427-521) first runs
the motion/stability analysis (line 468) and then the contour selection:
on a successful detection `lastDetectedCorners` is overwritten (line 498),
otherwise it is left as is — nothing ever clears it.  `stopCamera` (lines
725-761) stops the timer and the stream but resets none of
`lastDetectedCorners`, `lastFrameData`, `hasMotion`, `stabilityFrames`,
`isStable`; `startCamera` (lines 651-723) likewise keeps them all. -/
def stepEvent (approxDP : Contour → ℚ → List Point) (s : DashState) :
    Event → DashState
  | .tick contours g =>
      let s1 := analyzeMotionAndStability s g
      match detectPhotoEdgesBest approxDP contours with
      | some q => { s1 with lastDetectedCorners := some q, cornersAge := 0 }
      | none => { s1 with cornersAge := s1.cornersAge + 1 }
  | .stop => { s with cameraOn := false }
  | .start => { s with cameraOn := true }

/-- The dashboard state after a sequence of events, starting from the
page-load state. -/
def runTrace (approxDP : Contour → ℚ → List Point) (tr : List Event) :
    DashState :=
  tr.foldl (stepEvent approxDP) initState

/-- A state is reachable when some event trace from page load produces it. -/
def ReachableState (approxDP : Contour → ℚ → List Point)
    (s : DashState) : Prop :=
  ∃ tr : List Event, runTrace approxDP tr = s

/-- An event is a detection tick on which the contour selection succeeded. -/
def TickDetected (approxDP : Contour → ℚ → List Point) : Event → Prop
  | .tick contours _ => (detectPhotoEdgesBest approxDP contours).isSome = true
  | .stop => False
  | .start => False

instance (approxDP : Contour → ℚ → List Point) (e : Event) :
    Decidable (TickDetected approxDP e) := by
  unfold TickDetected; cases e <;> infer_instance

/-- Repeatedly feed the same grayscale frame to the motion tracker. -/
def identRun (s : DashState) (f : List ℕ) : ℕ → DashState
  | 0 => s
  | k + 1 => analyzeMotionAndStability (identRun s f k) f

/-! ### Capture and perspective correction (capturePhoto lines 784-864,
applyPerspectiveCorrection lines 866-927) -/

/-- A raster image handle (an off-screen canvas): only its dimensions
matter to the claims considered here. -/
structure Canvas where
  width : ℕ
  height : ℕ
deriving DecidableEq, Repr

/-- The capture-time gate at dashboard.js line 829:
`this.perspectiveCorrectionEnabled && this.lastDetectedCorners &&
this.openCVReady && window.cv`; `openCVReady` and `window.cv` are truthy
together and are folded into a single `cvReady` flag. -/
def captureUsesRectification (enabled cvReady : Bool) (s : DashState) : Bool :=
  enabled && s.lastDetectedCorners.isSome && cvReady

/-- `applyPerspectiveCorrection` (dashboard.js lines 866-927).  The guard
at line 868 returns the input canvas when the vision library is missing or
the corner list does not have exactly 4 entries.  The OpenCV chain
(`getPerspectiveTransform` + `warpPerspective` + `imshow`) is the external
primitive `warp`, applied to the canonically sorted corners; it returns
`none` exactly when the original code would throw (degenerate geometry),
and the surrounding try/catch (lines 923-926) then returns the original
canvas. -/
def applyPerspectiveCorrection (cvReady : Bool)
    (warp : List Point → Canvas → Option Canvas)
    (canvas : Canvas) (corners : List Point) : Canvas :=
  if !cvReady || corners.length ≠ 4 then canvas
  else
    match warp (sortCorners corners) canvas with
    | some out => out
    | none => canvas

/-- The image a capture uploads (capturePhoto lines 827-831): the raw
full-frame canvas, replaced by the perspective-corrected canvas exactly
when the line-829 gate passes. -/
def capturePhotoProcessed (enabled cvReady : Bool)
    (warp : List Point → Canvas → Option Canvas)
    (canvas : Canvas) (s : DashState) : Canvas :=
  match s.lastDetectedCorners with
  | some corners =>
      if enabled && cvReady then
        applyPerspectiveCorrection cvReady warp canvas corners
      else canvas
  | none => canvas

/-! ### Frame resolutions (detectPhotoEdges lines 436-440, capturePhoto
lines 806-807) -/

/-- The dimensions the camera video element reports. -/
structure VideoSource where
  videoWidth : ℕ
  videoHeight : ℕ
deriving DecidableEq, Repr

/-- Size of the off-screen canvas that each detection tick samples the
video into: `canvas.width = video.videoWidth; canvas.height =
video.videoHeight` (dashboard.js lines 437-438). -/
def detectionCanvasDims (v : VideoSource) : ℕ × ℕ :=
  (v.videoWidth, v.videoHeight)

/-- Size of the capture canvas: `canvas.width = video.videoWidth;
canvas.height = video.videoHeight` (dashboard.js lines 806-807). -/
def captureCanvasDims (v : VideoSource) : ℕ × ℕ :=
  (v.videoWidth, v.videoHeight)

/-! ### Rectified output dimensions (applyPerspectiveCorrection lines
884-895), over the reals since they involve square roots -/

/-- Euclidean length of the segment from `p` to `q`
(`Math.sqrt(Math.pow(qx - px, 2) + Math.pow(qy - py, 2))`). -/
noncomputable def segLength (p q : Point) : ℝ :=
  Real.sqrt (((q.x : ℝ) - (p.x : ℝ)) ^ 2 + ((q.y : ℝ) - (p.y : ℝ)) ^ 2)

/-- `outputWidth = Math.max(width1, width2)` with
`width1 = dist(sorted[0], sorted[1])` and `width2 = dist(sorted[3], sorted[2])`
(dashboard.js lines 885-888 and 894). -/
noncomputable def applyPCOutputWidth (s0 s1 s2 s3 : Point) : ℝ :=
  let width1 := Real.sqrt (((s1.x : ℝ) - (s0.x : ℝ)) ^ 2 + ((s1.y : ℝ) - (s0.y : ℝ)) ^ 2)
  let width2 := Real.sqrt (((s2.x : ℝ) - (s3.x : ℝ)) ^ 2 + ((s2.y : ℝ) - (s3.y : ℝ)) ^ 2)
  max width1 width2

/-- `outputHeight = Math.max(height1, height2)` with
`height1 = dist(sorted[0], sorted[3])` and `height2 = dist(sorted[1], sorted[2])`
(dashboard.js lines 889-892 and 895). -/
noncomputable def applyPCOutputHeight (s0 s1 s2 s3 : Point) : ℝ :=
  let height1 := Real.sqrt (((s3.x : ℝ) - (s0.x : ℝ)) ^ 2 + ((s3.y : ℝ) - (s0.y : ℝ)) ^ 2)
  let height2 := Real.sqrt (((s2.x : ℝ) - (s1.x : ℝ)) ^ 2 + ((s2.y : ℝ) - (s1.y : ℝ)) ^ 2)
  max height1 height2

/-! ## Proof apparatus: the atan2 comparator order -/

theorem halfId_spec (u : Point) :
    (halfId u = 0 ∧ u.y < 0) ∨ (halfId u = 1 ∧ u.y = 0 ∧ 0 ≤ u.x) ∨
      (halfId u = 2 ∧ 0 < u.y) ∨ (halfId u = 3 ∧ u.y = 0 ∧ u.x < 0) := by
  unfold halfId
  split_ifs with h1 h2 h3
  · exact Or.inl ⟨rfl, h1⟩
  · exact Or.inr (Or.inl ⟨rfl, h2⟩)
  · exact Or.inr (Or.inr (Or.inl ⟨rfl, h3⟩))
  · refine Or.inr (Or.inr (Or.inr ⟨rfl, ?_, ?_⟩))
    · linarith [lt_or_ge u.y 0, h1, h3]
    · by_contra hx
      push_neg at hx
      exact h2 ⟨by linarith, hx⟩

theorem cross_swap (u v : Point) : cross v u = -cross u v := by
  unfold cross; ring

theorem cross_pos_iff_slope (u v : Point) (h : halfId u = halfId v) :
    0 < cross u v ↔ slopeKey u < slopeKey v := by
  rcases halfId_spec u with ⟨e1, hy⟩ | ⟨e1, hy, hx⟩ | ⟨e1, hy⟩ | ⟨e1, hy, hx⟩ <;>
    rcases halfId_spec v with ⟨e2, ky⟩ | ⟨e2, ky, kx⟩ | ⟨e2, ky⟩ | ⟨e2, ky, kx⟩ <;>
      rw [e1, e2] at h <;> try omega
  · -- both vectors in the open lower half-plane
    unfold cross slopeKey
    rw [show -u.x / u.y = u.x / -u.y by rw [neg_div, div_neg],
        show -v.x / v.y = v.x / -v.y by rw [neg_div, div_neg],
        div_lt_div_iff₀ (by linarith) (by linarith)]
    constructor <;> intro hc <;> nlinarith
  · -- both on the nonnegative x-axis: angle 0 on each side
    simp [cross, slopeKey, hy, ky]
  · -- both vectors in the open upper half-plane
    unfold cross slopeKey
    rw [div_lt_div_iff₀ hy ky]
    constructor <;> intro hc <;> nlinarith
  · -- both on the negative x-axis: angle pi on each side
    simp [cross, slopeKey, hy, ky]

theorem angleLt_iff_key (c p q : Point) :
    angleLt c p q ↔
      (halfId (pvsub p c) < halfId (pvsub q c) ∨
        (halfId (pvsub p c) = halfId (pvsub q c) ∧
          slopeKey (pvsub p c) < slopeKey (pvsub q c))) := by
  unfold angleLt
  constructor
  · rintro (h | ⟨he, hc⟩)
    · exact Or.inl h
    · exact Or.inr ⟨he, (cross_pos_iff_slope _ _ he).mp hc⟩
  · rintro (h | ⟨he, hk⟩)
    · exact Or.inl h
    · exact Or.inr ⟨he, (cross_pos_iff_slope _ _ he).mpr hk⟩

instance (c : Point) : IsTrans Point (angleLe c) := by
  constructor
  intro a b d hab hbd
  unfold angleLe at *
  rw [angleLt_iff_key] at *
  push_neg at hab hbd ⊢
  obtain ⟨h1, h2⟩ := hab
  obtain ⟨h3, h4⟩ := hbd
  constructor
  · omega
  · intro he
    have hba : halfId (pvsub b c) = halfId (pvsub a c) := by omega
    have hdb : halfId (pvsub d c) = halfId (pvsub b c) := by omega
    have := h2 hba
    have := h4 hdb
    linarith

instance (c : Point) : IsTotal Point (angleLe c) := by
  constructor
  intro a b
  by_contra hcon
  push_neg at hcon
  obtain ⟨h1, h2⟩ := hcon
  unfold angleLe at h1 h2
  push_neg at h1 h2
  rw [angleLt_iff_key] at h1 h2
  rcases h1 with h1 | ⟨he1, hk1⟩ <;> rcases h2 with h2 | ⟨he2, hk2⟩ <;>
    first
      | omega
      | linarith

theorem angleTie_of_le_le {c p q : Point} (hpq : angleLe c p q)
    (hqp : angleLe c q p) : angleTie c p q := by
  unfold angleLe at hpq hqp
  rw [angleLt_iff_key] at hpq hqp
  push_neg at hpq hqp
  obtain ⟨h1, h2⟩ := hpq
  obtain ⟨h3, h4⟩ := hqp
  have he : halfId (pvsub p c) = halfId (pvsub q c) := by omega
  refine ⟨he, ?_⟩
  have hk1 := h2 he.symm
  have hk2 := h4 he
  have hkeq : slopeKey (pvsub p c) = slopeKey (pvsub q c) := le_antisymm hk1 hk2
  by_contra hc
  rcases lt_or_gt_of_ne hc with hlt | hgt
  · have : 0 < cross (pvsub q c) (pvsub p c) := by
      rw [cross_swap]; linarith
    exact absurd ((cross_pos_iff_slope _ _ he.symm).mp this) (by rw [hkeq]; exact lt_irrefl _)
  · exact absurd ((cross_pos_iff_slope _ _ he).mp hgt) (by rw [hkeq]; exact lt_irrefl _)

/-! ## Proof apparatus: stable sorting of lists without comparator ties -/

theorem eq_of_perm_of_sorted_of_mem_antisymm {α : Type} {r : α → α → Prop} :
    ∀ {l₁ l₂ : List α},
      (∀ a ∈ l₁, ∀ b ∈ l₁, r a b → r b a → a = b) →
      l₁.Perm l₂ → l₁.Sorted r → l₂.Sorted r → l₁ = l₂ := by
  intro l₁
  induction l₁ with
  | nil => intro l₂ _ hp _ _; exact hp.nil_eq
  | cons a t IH =>
    intro l₂ anti hp hs₁ hs₂
    have ha : a ∈ l₂ := hp.subset (List.mem_cons_self _ _)
    obtain ⟨u, v, rfl⟩ := List.append_of_mem ha
    have hp' : t.Perm (u ++ v) := (List.perm_cons a).1 (hp.trans List.perm_middle)
    have h₁ : ∀ b ∈ t, r a b := List.rel_of_sorted_cons hs₁
    have hsuv : (u ++ v).Sorted r := hs₂.sublist (by simp)
    have anti' : ∀ x ∈ t, ∀ y ∈ t, r x y → r y x → x = y := fun x hx y hy =>
      anti x (List.mem_cons_of_mem _ hx) y (List.mem_cons_of_mem _ hy)
    obtain rfl : t = u ++ v := IH anti' hp' hs₁.of_cons hsuv
    have hall : ∀ x ∈ u, x = a := by
      intro x hx
      have hxa : r x a :=
        (List.pairwise_append.1 hs₂).2.2 x hx a (List.mem_cons_self _ _)
      have hax : r a x := h₁ x (List.mem_append_left _ hx)
      exact anti x (List.mem_cons_of_mem _ (List.mem_append_left _ hx)) a
        (List.mem_cons_self _ _) hxa hax
    obtain hu : u = List.replicate u.length a := List.eq_replicate_of_mem hall
    rw [hu, ← List.cons_append, ← List.replicate_succ, List.replicate_succ',
      List.append_assoc, List.singleton_append]

theorem centroid_perm {l l' : List Point} (hp : l'.Perm l) :
    centroid l' = centroid l := by
  unfold centroid
  rw [(hp.map Point.x).sum_eq, (hp.map Point.y).sum_eq]

theorem insertionSort_eq_of_perm {l l' : List Point} (hp : l'.Perm l)
    (hnt : ∀ p ∈ l, ∀ q ∈ l, angleTie (centroid l) p q → p = q) :
    List.insertionSort (angleLe (centroid l)) l' =
      List.insertionSort (angleLe (centroid l)) l := by
  apply eq_of_perm_of_sorted_of_mem_antisymm
  · intro a hia b hib hab hba
    have ha : a ∈ l := hp.subset ((List.perm_insertionSort _ l').subset hia)
    have hb : b ∈ l := hp.subset ((List.perm_insertionSort _ l').subset hib)
    exact hnt a ha b hb (angleTie_of_le_le hab hba)
  · exact (List.perm_insertionSort _ _).trans
      (hp.trans (List.perm_insertionSort _ _).symm)
  · exact List.sorted_insertionSort _ _
  · exact List.sorted_insertionSort _ _

theorem sortCorners_congr {l l' : List Point} (hp : l'.Perm l)
    (hnt : ∀ p ∈ l, ∀ q ∈ l, angleTie (centroid l) p q → p = q) :
    sortCorners l' = sortCorners l := by
  simp only [sortCorners]
  rw [centroid_perm hp, insertionSort_eq_of_perm hp hnt]

theorem minSumIdx_lt_four (l : List Point) : minSumIdx l < 4 := by
  unfold minSumIdx
  simp only [List.foldl]
  split_ifs <;> omega

theorem rotation_getD_perm (s : List Point) (hs : s.length = 4) (t : ℕ)
    (ht : t < 4) :
    [s.getD t default, s.getD ((t + 1) % 4) default,
      s.getD ((t + 2) % 4) default, s.getD ((t + 3) % 4) default].Perm s := by
  rcases s with _ | ⟨a, _ | ⟨b, _ | ⟨c, _ | ⟨d, _ | e⟩⟩⟩⟩ <;> simp at hs
  interval_cases t
  · simp [List.getD]
  · show ([b, c, d] ++ [a]).Perm ([a] ++ [b, c, d])
    exact List.perm_append_comm
  · show ([c, d] ++ [a, b]).Perm ([a, b] ++ [c, d])
    exact List.perm_append_comm
  · show ([d] ++ [a, b, c]).Perm ([a, b, c] ++ [d])
    exact List.perm_append_comm

theorem sortCorners_perm {l : List Point} (h : l.length = 4) :
    (sortCorners l).Perm l := by
  have hlen : (List.insertionSort (angleLe (centroid l)) l).length = 4 := by
    rw [(List.perm_insertionSort _ l).length_eq, h]
  unfold sortCorners
  exact (rotation_getD_perm _ hlen _ (minSumIdx_lt_four _)).trans
    (List.perm_insertionSort _ _)

/-! ## Claim C4: sortCorners rotation invariance and idempotence -/

/-- C4 counterexample: for the input points (0,0), (2,2), (10,0), (0,10) —
where (0,0) and (2,2) subtend the same atan2 angle around the centroid
(3,3), so the comparator ties — sortCorners applied to the cyclic rotation
of the input by one position yields a different ordering than sortCorners
on the original order, and sortCorners is not idempotent on the output it
produces for the rotated input.  This refutes the claim as stated for
arbitrary 4-point inputs. -/
theorem sortCorners_rotation_tie_cex :
    sortCorners (([⟨0, 0⟩, ⟨2, 2⟩, ⟨10, 0⟩, ⟨0, 10⟩] : List Point).rotate 1) ≠
        sortCorners ([⟨0, 0⟩, ⟨2, 2⟩, ⟨10, 0⟩, ⟨0, 10⟩] : List Point) ∧
      sortCorners (sortCorners (([⟨0, 0⟩, ⟨2, 2⟩, ⟨10, 0⟩, ⟨0, 10⟩] :
            List Point).rotate 1)) ≠
        sortCorners (([⟨0, 0⟩, ⟨2, 2⟩, ⟨10, 0⟩, ⟨0, 10⟩] : List Point).rotate 1) := by
  refine of_decide_eq_true ?_
  with_unfolding_all rfl

/-- C4 (amended): for every 4 points whose atan2 angles around their
centroid are pairwise distinct (no comparator ties), sortCorners yields the
identical canonical ordering on every cyclic rotation of the input, and
sortCorners applied to its own output returns that output unchanged. -/
theorem sortCorners_canonical_of_no_ties (a b c d : Point)
    (hnt : ∀ p ∈ [a, b, c, d], ∀ q ∈ [a, b, c, d],
      angleTie (centroid [a, b, c, d]) p q → p = q) :
    (∀ k : ℕ, sortCorners ([a, b, c, d].rotate k) = sortCorners [a, b, c, d]) ∧
      sortCorners (sortCorners [a, b, c, d]) = sortCorners [a, b, c, d] := by
  constructor
  · intro k
    exact sortCorners_congr (List.rotate_perm _ _) hnt
  · exact sortCorners_congr (sortCorners_perm rfl) hnt

/-- Witness for C4 (amended) at the tie-free quadrilateral (0,0), (10,1),
(11,12), (1,11). -/
theorem sortCorners_canonical_of_no_ties_witness :
    (∀ k : ℕ,
        sortCorners (([⟨0, 0⟩, ⟨10, 1⟩, ⟨11, 12⟩, ⟨1, 11⟩] : List Point).rotate k) =
          sortCorners ([⟨0, 0⟩, ⟨10, 1⟩, ⟨11, 12⟩, ⟨1, 11⟩] : List Point)) ∧
      sortCorners (sortCorners ([⟨0, 0⟩, ⟨10, 1⟩, ⟨11, 12⟩, ⟨1, 11⟩] : List Point)) =
        sortCorners ([⟨0, 0⟩, ⟨10, 1⟩, ⟨11, 12⟩, ⟨1, 11⟩] : List Point) :=
  sortCorners_canonical_of_no_ties _ _ _ _
    (of_decide_eq_true (by with_unfolding_all rfl))

/-! ## Claim C10: sortCorners returns a permutation of its input -/

/-- C10: for every input list of exactly 4 corner points, sortCorners
returns a permutation of the input points — each input point occurs in the
output exactly as often as in the input, with no point modified, dropped
or invented.  (The source copies the input with a spread before sorting,
so the caller's array and its order are untouched; in this pure embedding
input immutability is inherent.) -/
theorem sortCorners_is_permutation (l : List Point) (h : l.length = 4) :
    (sortCorners l).Perm l :=
  sortCorners_perm h

/-- Witness for C10 at a concrete 4-point input. -/
theorem sortCorners_is_permutation_witness :
    ([(⟨0, 0⟩ : Point), ⟨10, 1⟩, ⟨11, 12⟩, ⟨1, 11⟩].length = 4) ∧
      (sortCorners [(⟨0, 0⟩ : Point), ⟨10, 1⟩, ⟨11, 12⟩, ⟨1, 11⟩]).Perm
        [⟨0, 0⟩, ⟨10, 1⟩, ⟨11, 12⟩, ⟨1, 11⟩] :=
  ⟨rfl, sortCorners_is_permutation _ rfl⟩

/-! ## Proof apparatus: the contour-selection loop as a first-max search -/

/-! ## Proof apparatus: the contour-selection loop as a first-max search -/

theorem find?_congr_iff {α : Type} {p q : α → Bool} :
    ∀ {l : List α}, (∀ x ∈ l, (p x = true ↔ q x = true)) → l.find? p = l.find? q := by
  intro l
  induction l with
  | nil => intro _; rfl
  | cons a t IH =>
    intro h
    cases hqa : q a
    · have hpa : ¬ p a = true := fun hp => by
        have hq2 := (h a (List.mem_cons_self _ _)).mp hp
        rw [hq2] at hqa
        exact Bool.noConfusion hqa
      rw [List.find?_cons_of_neg _ hpa, List.find?_cons_of_neg _ (by simp [hqa])]
      exact IH fun x hx => h x (List.mem_cons_of_mem _ hx)
    · rw [List.find?_cons_of_pos _ ((h a (List.mem_cons_self _ _)).mpr hqa),
        List.find?_cons_of_pos _ hqa]

theorem aboveMaxPred_iff (approxDP : Contour → ℚ → List Point)
    (l : List Contour) (A : ℚ) (e : Contour) :
    aboveMaxPred approxDP l A e = true ↔
      qualifiesB approxDP e = true ∧ A < e.area ∧
        ∀ x ∈ l, qualifiesB approxDP x = true → A < x.area → x.area ≤ e.area := by
  unfold aboveMaxPred
  simp only [Bool.and_eq_true, decide_eq_true_eq, List.all_eq_true, Bool.or_eq_true,
    Bool.not_eq_true', Bool.and_eq_false_iff, decide_eq_false_iff_not, and_assoc]
  constructor
  · rintro ⟨h1, h2, h3⟩
    refine ⟨h1, h2, ?_⟩
    intro x hx hq hAx
    rcases h3 x hx with (h4 | h4) | h4
    · rw [hq] at h4; exact Bool.noConfusion h4
    · exact absurd hAx h4
    · exact h4
  · rintro ⟨h1, h2, h3⟩
    refine ⟨h1, h2, ?_⟩
    intro x hx
    by_cases hq : qualifiesB approxDP x = true
    · by_cases hAx : A < x.area
      · right; exact h3 x hx hq hAx
      · left; right; exact hAx
    · left; left
      revert hq; cases qualifiesB approxDP x <;> simp

theorem firstMaxAbove_eq_none_iff (approxDP : Contour → ℚ → List Point) :
    ∀ (l : List Contour) (A : ℚ),
      firstMaxAbove approxDP l A = none ↔
        ∀ c ∈ l, qualifiesB approxDP c = true → c.area ≤ A := by
  intro l
  induction l with
  | nil => intro A; simp [firstMaxAbove]
  | cons c rest IH =>
    intro A
    simp only [firstMaxAbove]
    by_cases hc : qualifiesB approxDP c = true ∧ A < c.area
    · rw [if_pos hc]
      constructor
      · intro h; exact Option.noConfusion h
      · intro h
        exact absurd (h c (List.mem_cons_self _ _) hc.1) (not_le.mpr hc.2)
    · rw [if_neg hc, IH A]
      constructor
      · intro h x hx hq
        rcases List.mem_cons.mp hx with rfl | hx2
        · rcases not_and_or.mp hc with h1 | h2
          · exact absurd hq h1
          · exact not_lt.mp h2
        · exact h x hx2 hq
      · intro h x hx hq
        exact h x (List.mem_cons_of_mem _ hx) hq

theorem firstMaxAbove_some (approxDP : Contour → ℚ → List Point) :
    ∀ (l : List Contour) (A : ℚ) (d : Contour),
      firstMaxAbove approxDP l A = some d →
        d ∈ l ∧ qualifiesB approxDP d = true ∧ A < d.area := by
  intro l
  induction l with
  | nil => intro A d h; exact Option.noConfusion h
  | cons c rest IH =>
    intro A d h
    simp only [firstMaxAbove] at h
    by_cases hc : qualifiesB approxDP c = true ∧ A < c.area
    · rw [if_pos hc] at h
      have hd : (firstMaxAbove approxDP rest c.area).getD c = d := Option.some.inj h
      rcases hfm : firstMaxAbove approxDP rest c.area with _ | e
      · rw [hfm, Option.getD_none] at hd
        subst hd
        exact ⟨List.mem_cons_self _ _, hc.1, hc.2⟩
      · rw [hfm, Option.getD_some] at hd
        subst hd
        obtain ⟨hmem, hq, harea⟩ := IH c.area e hfm
        exact ⟨List.mem_cons_of_mem _ hmem, hq, lt_trans hc.2 harea⟩
    · rw [if_neg hc] at h
      obtain ⟨hmem, hq, harea⟩ := IH A d h
      exact ⟨List.mem_cons_of_mem _ hmem, hq, harea⟩

theorem detectLoop_eq_firstMaxAbove (approxDP : Contour → ℚ → List Point) :
    ∀ (l : List Contour) (A : ℚ) (best : Option (List Point)),
      detectLoop approxDP l A best =
        (firstMaxAbove approxDP l A).elim best
          (fun c => some (approxDP c (polyEpsilonOf c))) := by
  intro l
  induction l with
  | nil => intro A best; rfl
  | cons c rest IH =>
    intro A best
    simp only [detectLoop, firstMaxAbove]
    by_cases hA : A < c.area
    · by_cases hmin : edgeMinArea < c.area
      · by_cases hlen : (approxDP c (polyEpsilonOf c)).length = 4
        · have hq : qualifiesB approxDP c = true := by simp [qualifiesB, hmin, hlen]
          rw [if_pos ⟨hA, hmin⟩, if_pos hlen, if_pos ⟨hq, hA⟩, IH]
          rcases hfm : firstMaxAbove approxDP rest c.area with _ | d <;> simp [hfm]
        · have hqf : ¬ (qualifiesB approxDP c = true ∧ A < c.area) := by
            simp [qualifiesB, hlen]
          rw [if_pos ⟨hA, hmin⟩, if_neg hlen, if_neg hqf, IH]
      · have hqf : ¬ (qualifiesB approxDP c = true ∧ A < c.area) := by
          simp [qualifiesB, hmin]
        rw [if_neg (fun hand => hmin hand.2), if_neg hqf, IH]
    · rw [if_neg (fun hand => hA hand.1), if_neg (fun hand => hA hand.2), IH]

theorem firstMaxAbove_eq_find? (approxDP : Contour → ℚ → List Point) :
    ∀ (l : List Contour) (A : ℚ),
      firstMaxAbove approxDP l A = l.find? (aboveMaxPred approxDP l A) := by
  intro l
  induction l with
  | nil => intro A; rfl
  | cons c rest IH =>
    intro A
    simp only [firstMaxAbove]
    by_cases hc : qualifiesB approxDP c = true ∧ A < c.area
    · rw [if_pos hc]
      rcases hfm : firstMaxAbove approxDP rest c.area with _ | d
      · -- nothing in the tail strictly beats c, so the predicate holds at c
        rw [Option.getD_none]
        have hrest := (firstMaxAbove_eq_none_iff approxDP rest c.area).mp hfm
        have hpc : aboveMaxPred approxDP (c :: rest) A c = true := by
          rw [aboveMaxPred_iff]
          refine ⟨hc.1, hc.2, ?_⟩
          intro x hx hqx _
          rcases List.mem_cons.mp hx with rfl | hx2
          · exact le_refl _
          · exact hrest x hx2 hqx
        rw [List.find?_cons_of_pos _ hpc]
      · -- a tail contour d strictly beats c
        rw [Option.getD_some]
        obtain ⟨hdmem, hdq, hdarea⟩ := firstMaxAbove_some approxDP rest c.area d hfm
        rw [List.find?_cons_of_neg]
        · rw [← hfm, IH c.area]
          apply find?_congr_iff
          intro e he
          rw [aboveMaxPred_iff, aboveMaxPred_iff]
          constructor
          · rintro ⟨h1, h2, h3⟩
            refine ⟨h1, lt_trans hc.2 h2, ?_⟩
            intro x hx hqx hAx
            rcases List.mem_cons.mp hx with rfl | hx2
            · exact le_of_lt h2
            · by_cases hcx : x.area ≤ c.area
              · exact le_trans hcx (le_of_lt h2)
              · exact h3 x hx2 hqx (not_le.mp hcx)
          · rintro ⟨h1, h2, h3⟩
            have hde : d.area ≤ e.area :=
              h3 d (List.mem_cons_of_mem _ hdmem) hdq (lt_trans hc.2 hdarea)
            refine ⟨h1, lt_of_lt_of_le hdarea hde, ?_⟩
            intro x hx hqx hcx
            exact h3 x (List.mem_cons_of_mem _ hx) hqx (lt_trans hc.2 hcx)
        · intro hpc
          rw [aboveMaxPred_iff] at hpc
          exact absurd (hpc.2.2 d (List.mem_cons_of_mem _ hdmem) hdq
            (lt_trans hc.2 hdarea)) (not_le.mpr hdarea)
    · rw [if_neg hc]
      have hpc : ¬ aboveMaxPred approxDP (c :: rest) A c = true := fun hpc => by
        rw [aboveMaxPred_iff] at hpc
        exact hc ⟨hpc.1, hpc.2.1⟩
      rw [List.find?_cons_of_neg _ hpc, IH A]
      apply find?_congr_iff
      intro e he
      rw [aboveMaxPred_iff, aboveMaxPred_iff]
      constructor
      · rintro ⟨h1, h2, h3⟩
        refine ⟨h1, h2, ?_⟩
        intro x hx hqx hAx
        rcases List.mem_cons.mp hx with rfl | hx2
        · exact absurd ⟨hqx, hAx⟩ hc
        · exact h3 x hx2 hqx hAx
      · rintro ⟨h1, h2, h3⟩
        exact ⟨h1, h2, fun x hx hqx hAx => h3 x (List.mem_cons_of_mem _ hx) hqx hAx⟩

theorem qual_area_pos (approxDP : Contour → ℚ → List Point) (x : Contour)
    (h : qualifiesB approxDP x = true) : 0 < x.area := by
  simp only [qualifiesB, Bool.and_eq_true, decide_eq_true_eq] at h
  have h5 : (0 : ℚ) < edgeMinArea := by norm_num [edgeMinArea]
  exact lt_trans h5 h.1

theorem specBestPred_iff (approxDP : Contour → ℚ → List Point)
    (l : List Contour) (e : Contour) :
    (qualifiesB approxDP e &&
        l.all fun d => !qualifiesB approxDP d || decide (d.area ≤ e.area)) = true ↔
      qualifiesB approxDP e = true ∧
        ∀ x ∈ l, qualifiesB approxDP x = true → x.area ≤ e.area := by
  simp only [Bool.and_eq_true, List.all_eq_true, Bool.or_eq_true, Bool.not_eq_true',
    decide_eq_true_eq]
  constructor
  · rintro ⟨h1, h2⟩
    refine ⟨h1, ?_⟩
    intro x hx hq
    rcases h2 x hx with h3 | h3
    · rw [hq] at h3; exact Bool.noConfusion h3
    · exact h3
  · rintro ⟨h1, h2⟩
    refine ⟨h1, ?_⟩
    intro x hx
    by_cases hq : qualifiesB approxDP x = true
    · right; exact h2 x hx hq
    · left; revert hq; cases qualifiesB approxDP x <;> simp

/-! ## Claim C2: the detection result is the largest qualifying contour -/

/-- C2: for every frame (every contour list and every polygon-approximation
primitive), the edge-detection loop returns the 4-vertex polygon
approximation of the qualifying contour with the largest area — a contour
qualifies when its area strictly exceeds the minimum-area threshold (5000)
and its polygon approximation at epsilon = 2% of its perimeter has exactly
4 vertices — with ties broken by the first such contour in traversal
order; and when no contour qualifies (in particular whenever no contour
reaches the minimum area, since then nothing qualifies) the result is
`none` and no corners are produced. -/
theorem detect_returns_largest_qualifying (approxDP : Contour → ℚ → List Point)
    (contours : List Contour) :
    detectPhotoEdgesBest approxDP contours =
      (specBestContour approxDP contours).map
        fun c => approxDP c (polyEpsilonOf c) := by
  unfold detectPhotoEdgesBest specBestContour
  rw [detectLoop_eq_firstMaxAbove, firstMaxAbove_eq_find?]
  have hcongr : contours.find? (aboveMaxPred approxDP contours 0) =
      contours.find? (fun c => qualifiesB approxDP c &&
        contours.all fun d => !qualifiesB approxDP d || decide (d.area ≤ c.area)) := by
    apply find?_congr_iff
    intro e he
    rw [aboveMaxPred_iff, specBestPred_iff]
    constructor
    · rintro ⟨h1, _, h3⟩
      exact ⟨h1, fun x hx hq => h3 x hx hq (qual_area_pos approxDP x hq)⟩
    · rintro ⟨h1, h2⟩
      exact ⟨h1, qual_area_pos approxDP e h1, fun x hx hq _ => h2 x hx hq⟩
  rw [hcongr]
  rcases contours.find? _ with _ | c <;> rfl

/-! ## Proof apparatus: the motion/stability state machine -/

theorem analyze_corners_unchanged (s : DashState) (g : List ℕ) :
    (analyzeMotionAndStability s g).lastDetectedCorners = s.lastDetectedCorners := by
  unfold analyzeMotionAndStability
  cases s.lastFrameData
  · rfl
  · dsimp only
    split_ifs <;> rfl

theorem analyze_stability_invariant (s : DashState) (g : List ℕ)
    (h : s.isStable = true → stabilityRequiredFrames ≤ s.stabilityFrames) :
    (analyzeMotionAndStability s g).isStable = true →
      stabilityRequiredFrames ≤ (analyzeMotionAndStability s g).stabilityFrames := by
  unfold analyzeMotionAndStability
  cases s.lastFrameData
  · exact h
  · dsimp only
    split_ifs with hm hsf
    · intro hfalse; exact hfalse.elim
    · intro _; exact hsf
    · intro hstable
      exact le_trans (h hstable) (Nat.le_succ _)

theorem stepEvent_stability_invariant (approxDP : Contour → ℚ → List Point)
    (s : DashState) (e : Event)
    (h : s.isStable = true → stabilityRequiredFrames ≤ s.stabilityFrames) :
    (stepEvent approxDP s e).isStable = true →
      stabilityRequiredFrames ≤ (stepEvent approxDP s e).stabilityFrames := by
  cases e with
  | tick contours g =>
    simp only [stepEvent]
    cases detectPhotoEdgesBest approxDP contours <;>
      exact analyze_stability_invariant s g h
  | stop => exact h
  | start => exact h

theorem runTrace_stability_invariant (approxDP : Contour → ℚ → List Point) :
    ∀ (tr : List Event) (s : DashState),
      (s.isStable = true → stabilityRequiredFrames ≤ s.stabilityFrames) →
        ((tr.foldl (stepEvent approxDP) s).isStable = true →
          stabilityRequiredFrames ≤ (tr.foldl (stepEvent approxDP) s).stabilityFrames) := by
  intro tr
  induction tr with
  | nil => intro s h; exact h
  | cons e rest IH =>
    intro s h
    rw [List.foldl_cons]
    exact IH _ (stepEvent_stability_invariant approxDP s e h)

theorem reachable_stability_invariant (approxDP : Contour → ℚ → List Point)
    (s : DashState) (hs : ReachableState approxDP s) :
    s.isStable = true → stabilityRequiredFrames ≤ s.stabilityFrames := by
  obtain ⟨tr, rfl⟩ := hs
  exact runTrace_stability_invariant approxDP tr initState (by decide)

/-! ## Claim C3: the motion-tracker update rule -/

/-- C3: for every motion-tracker update on a reachable dashboard state that
holds a previous grayscale frame: `hasMotion` becomes true exactly when the
motion level — the sum of per-pixel absolute differences between the
current and previous grayscale frames — exceeds the motion threshold
(5000); on motion the stability counter resets to 0 and the state becomes
Stabilizing (`isStable = false`); without motion the counter increments by
one and the state is Stable (`isStable = true`) exactly when the counter
has reached `stabilityRequiredFrames` (10), otherwise Stabilizing. -/
theorem motion_update_spec (approxDP : Contour → ℚ → List Point)
    (s : DashState) (hs : ReachableState approxDP s) (prev g : List ℕ)
    (hprev : s.lastFrameData = some prev) :
    (analyzeMotionAndStability s g).hasMotion =
        decide (motionThreshold < (List.zipWith natAbsDiff g prev).sum) ∧
      (motionThreshold < (List.zipWith natAbsDiff g prev).sum →
        (analyzeMotionAndStability s g).stabilityFrames = 0 ∧
          (analyzeMotionAndStability s g).isStable = false) ∧
      (¬ motionThreshold < (List.zipWith natAbsDiff g prev).sum →
        (analyzeMotionAndStability s g).stabilityFrames = s.stabilityFrames + 1 ∧
          ((analyzeMotionAndStability s g).isStable = true ↔
            stabilityRequiredFrames ≤ (analyzeMotionAndStability s g).stabilityFrames)) := by
  have hinv := reachable_stability_invariant approxDP s hs
  have hml : motionLevelOf g prev = (List.zipWith natAbsDiff g prev).sum := rfl
  unfold analyzeMotionAndStability
  rw [hprev]
  dsimp only
  by_cases hm : motionLevelOf g prev > motionThreshold
  · rw [if_pos hm]
    rw [hml] at hm
    refine ⟨by simp [hm], fun _ => ⟨rfl, rfl⟩, fun hq => absurd hm hq⟩
  · rw [if_neg hm]
    rw [hml] at hm
    refine ⟨by simp [hm], fun hq => absurd hq hm, fun _ => ⟨rfl, ?_⟩⟩
    dsimp only
    by_cases hsf : s.stabilityFrames + 1 ≥ stabilityRequiredFrames
    · rw [if_pos hsf]
      exact ⟨fun _ => hsf, fun _ => rfl⟩
    · rw [if_neg hsf]
      constructor
      · intro hstable
        exact le_trans (hinv hstable) (Nat.le_succ _)
      · intro hle
        exact absurd hle hsf

/-- Witness for C3: the state after one tick from page load holds the
frame [3] as previous; a next frame [6000] produces a motion level of 5997
and so triggers motion. -/
theorem motion_update_spec_witness :
    (analyzeMotionAndStability
          (runTrace (fun _ _ => []) [Event.tick [] [3]]) [6000]).hasMotion =
        decide (motionThreshold < (List.zipWith natAbsDiff [6000] [3]).sum) ∧
      (motionThreshold < (List.zipWith natAbsDiff [6000] [3]).sum →
        (analyzeMotionAndStability
            (runTrace (fun _ _ => []) [Event.tick [] [3]]) [6000]).stabilityFrames = 0 ∧
          (analyzeMotionAndStability
            (runTrace (fun _ _ => []) [Event.tick [] [3]]) [6000]).isStable = false) ∧
      (¬ motionThreshold < (List.zipWith natAbsDiff [6000] [3]).sum →
        (analyzeMotionAndStability
            (runTrace (fun _ _ => []) [Event.tick [] [3]]) [6000]).stabilityFrames =
            (runTrace (fun _ _ => []) [Event.tick [] [3]]).stabilityFrames + 1 ∧
          ((analyzeMotionAndStability
              (runTrace (fun _ _ => []) [Event.tick [] [3]]) [6000]).isStable = true ↔
            stabilityRequiredFrames ≤
              (analyzeMotionAndStability
                (runTrace (fun _ _ => []) [Event.tick [] [3]]) [6000]).stabilityFrames)) :=
  motion_update_spec (fun _ _ => []) _ ⟨[Event.tick [] [3]], rfl⟩ [3] [6000] rfl

/-! ## Claim C8: stability after N identical frames -/

theorem motionLevelOf_self (f : List ℕ) : motionLevelOf f f = 0 := by
  unfold motionLevelOf
  induction f with
  | nil => rfl
  | cons a t IH =>
    simp only [List.zipWith_cons_cons, List.sum_cons, IH, Nat.add_zero]
    unfold natAbsDiff
    simp

theorem analyze_quiet_step (t : DashState) (f : List ℕ)
    (h : t.lastFrameData = some f) :
    analyzeMotionAndStability t f =
      { t with hasMotion := false
               stabilityFrames := t.stabilityFrames + 1
               isStable :=
                 if t.stabilityFrames + 1 ≥ stabilityRequiredFrames then true
                 else t.isStable
               lastFrameData := some f } := by
  unfold analyzeMotionAndStability
  rw [h]
  dsimp only
  rw [if_neg (by rw [motionLevelOf_self]; simp [motionThreshold])]

theorem identRun_spec (s : DashState) (f : List ℕ)
    (h0 : s.stabilityFrames = 0) (h1 : s.isStable = false)
    (h2 : s.lastFrameData = some f) :
    ∀ k : ℕ, (identRun s f k).stabilityFrames = k ∧
      (identRun s f k).isStable = decide (stabilityRequiredFrames ≤ k) ∧
      (identRun s f k).lastFrameData = some f := by
  intro k
  induction k with
  | zero =>
    refine ⟨h0, ?_, h2⟩
    show s.isStable = decide (stabilityRequiredFrames ≤ 0)
    rw [h1]
    simp [stabilityRequiredFrames]
  | succ k IH =>
    obtain ⟨ih1, ih2, ih3⟩ := IH
    have hstep := analyze_quiet_step (identRun s f k) f ih3
    have hrun : identRun s f (k + 1) = analyzeMotionAndStability (identRun s f k) f := rfl
    rw [hrun, hstep]
    refine ⟨by simp [ih1], ?_, rfl⟩
    dsimp only
    rw [ih1]
    by_cases hk : k + 1 ≥ stabilityRequiredFrames
    · rw [if_pos hk]
      simp [hk]
    · rw [if_neg hk, ih2]
      have h1 : ¬ stabilityRequiredFrames ≤ k := fun hc => hk (le_trans hc (Nat.le_succ _))
      simp [h1, hk]

/-- C8 counterexample: with `stabilityRequiredFrames = 10`, take a motion
event followed by N = 11 identical frames.  The claim demands the state be
Stabilizing at every identical frame before the 11-th, but the code is
already Stable at the 10-th identical frame. -/
theorem stable_before_nth_identical_frame_cex :
    ¬ (∀ k : ℕ, 1 ≤ k → k < 11 →
        (identRun
            (analyzeMotionAndStability
              (analyzeMotionAndStability initState [0]) [6000]) [6000] k).isStable =
          false) := by
  intro h
  have h10 := h 10 (by omega) (by omega)
  have : (identRun
      (analyzeMotionAndStability
        (analyzeMotionAndStability initState [0]) [6000]) [6000] 10).isStable = true := by
    decide
  rw [this] at h10
  exact Bool.noConfusion h10

/-- C8 (amended): for every update sequence consisting of a motion event
(counter reset to 0, state Stabilizing, previous frame stored) followed by
identical frames, the stability state at the k-th identical frame is
Stable exactly when k ≥ `stabilityRequiredFrames` (10) and Stabilizing
before the 10-th; in particular, for N ≥ 10 identical frames the state is
Stable at the N-th frame, first reached at the 10-th. -/
theorem stable_iff_required_identical_frames (s : DashState) (f : List ℕ)
    (h0 : s.stabilityFrames = 0) (h1 : s.isStable = false)
    (h2 : s.lastFrameData = some f) (k : ℕ) :
    (identRun s f k).isStable = true ↔ stabilityRequiredFrames ≤ k := by
  obtain ⟨_, hstab, _⟩ := identRun_spec s f h0 h1 h2 k
  rw [hstab]
  simp

/-- Witness for C8 (amended): after a concrete motion event, the 10-th
identical frame is the first Stable one. -/
theorem stable_iff_required_identical_frames_witness :
    ((identRun
          (analyzeMotionAndStability
            (analyzeMotionAndStability initState [0]) [6000]) [6000] 10).isStable = true ↔
        stabilityRequiredFrames ≤ 10) ∧
      ((identRun
          (analyzeMotionAndStability
            (analyzeMotionAndStability initState [0]) [6000]) [6000] 9).isStable = true ↔
        stabilityRequiredFrames ≤ 9) :=
  ⟨stable_iff_required_identical_frames _ _ rfl rfl rfl 10,
   stable_iff_required_identical_frames _ _ rfl rfl rfl 9⟩

/-! ## Claim C9: updates without a previous frame, and session boundaries -/

/-- C9 counterexample: the pipeline state is not discarded when a camera
session ends.  After a session with two ticks (frames [0] then [6000]),
stopping the camera and starting a new session, the tracker still holds
the old session's last frame; the first tick of the new session therefore
runs a motion comparison against it — here frame [0] against stored
[6000] yields hasMotion = true — contradicting the claim that the first
tick of every camera session finds no previous frame and yields
hasMotion = false. -/
theorem previous_frame_persists_across_sessions_cex :
    (runTrace (fun _ _ => []) [Event.start, Event.tick [] [0], Event.tick [] [6000],
        Event.stop, Event.start]).lastFrameData ≠ none ∧
      (runTrace (fun _ _ => []) [Event.start, Event.tick [] [0], Event.tick [] [6000],
          Event.stop, Event.start, Event.tick [] [0]]).hasMotion = true := by
  refine ⟨?_, by decide⟩
  decide

/-- C9 (amended): whenever the motion tracker holds no previous grayscale
frame — which happens only before the very first analysed frame after page
load, since the pipeline state persists across camera sessions — the
update performs no motion analysis: hasMotion, the stability counter and
the stability state keep their previous values (all still at their
page-load values false/0/false in that situation), and the tracker stores
the current grayscale frame as the single-slot previous frame for the next
update. -/
theorem motion_update_no_previous_frame (s : DashState) (g : List ℕ)
    (h : s.lastFrameData = none) :
    analyzeMotionAndStability s g = { s with lastFrameData := some g } := by
  unfold analyzeMotionAndStability
  rw [h]

/-- Witness for C9 (amended) at the page-load state. -/
theorem motion_update_no_previous_frame_witness :
    analyzeMotionAndStability initState [7] =
      { initState with lastFrameData := some [7] } :=
  motion_update_no_previous_frame initState [7] rfl

/-! ## Claim C1: capture freshness of the detected quadrilateral -/

theorem stepEvent_corners_isSome (approxDP : Contour → ℚ → List Point)
    (s : DashState) (e : Event) :
    (stepEvent approxDP s e).lastDetectedCorners.isSome = true ↔
      TickDetected approxDP e ∨ s.lastDetectedCorners.isSome = true := by
  cases e with
  | tick cs g =>
    simp only [stepEvent, TickDetected]
    rcases hd : detectPhotoEdgesBest approxDP cs with _ | q
    · simp [analyze_corners_unchanged]
    · simp
  | stop => simp [stepEvent, TickDetected]
  | start => simp [stepEvent, TickDetected]

theorem foldl_corners_isSome (approxDP : Contour → ℚ → List Point) :
    ∀ (tr : List Event) (s : DashState),
      ((tr.foldl (stepEvent approxDP) s).lastDetectedCorners.isSome = true ↔
        (∃ e ∈ tr, TickDetected approxDP e) ∨
          s.lastDetectedCorners.isSome = true) := by
  intro tr
  induction tr with
  | nil => intro s; simp
  | cons e rest IH =>
    intro s
    rw [List.foldl_cons, IH, stepEvent_corners_isSome]
    simp only [List.mem_cons]
    constructor
    · rintro (⟨x, hx, hTx⟩ | (hTe | hS))
      · exact Or.inl ⟨x, Or.inr hx, hTx⟩
      · exact Or.inl ⟨e, Or.inl rfl, hTe⟩
      · exact Or.inr hS
    · rintro (⟨x, (rfl | hx), hTx⟩ | hS)
      · exact Or.inr (Or.inl hTx)
      · exact Or.inl ⟨x, hx, hTx⟩
      · exact Or.inr (Or.inr hS)

/-- C1 counterexample: after a tick that detects a quadrilateral followed
by two detection ticks with no qualifying contour, the stored corners are
three ticks old (older than the current or immediately preceding tick),
yet the capture gate still applies perspective rectification with them:
there is no staleness check in the code. -/
theorem capture_rectifies_stale_quadrilateral_cex :
    ¬ (captureUsesRectification true true
          (runTrace (fun _ _ => [⟨0, 0⟩, ⟨4, 0⟩, ⟨4, 3⟩, ⟨0, 3⟩])
            [Event.tick [⟨6000, 40⟩] [0], Event.tick [] [0],
              Event.tick [] [0]]) = true →
        (runTrace (fun _ _ => [⟨0, 0⟩, ⟨4, 0⟩, ⟨4, 3⟩, ⟨0, 3⟩])
            [Event.tick [⟨6000, 40⟩] [0], Event.tick [] [0],
              Event.tick [] [0]]).cornersAge ≤ 1) := by
  refine of_decide_eq_true ?_
  with_unfolding_all rfl

/-- C1 (amended): capture applies perspective rectification exactly when
perspective correction is enabled, the vision library is ready, and some
past detection tick — arbitrarily long ago, since `lastDetectedCorners` is
never cleared, neither on no-detection ticks nor at camera session
boundaries — produced a quadrilateral; only when no quadrilateral was ever
detected (or a flag is off) does capture proceed with the unrectified full
frame. -/
theorem capture_rectification_iff_ever_detected
    (approxDP : Contour → ℚ → List Point) (tr : List Event)
    (enabled cvReady : Bool) :
    captureUsesRectification enabled cvReady (runTrace approxDP tr) = true ↔
      enabled = true ∧ cvReady = true ∧ ∃ e ∈ tr, TickDetected approxDP e := by
  unfold captureUsesRectification runTrace
  simp only [Bool.and_eq_true]
  rw [foldl_corners_isSome]
  simp only [initState, Option.isSome_none, Bool.false_eq_true, or_false]
  tauto

/-! ## Claim C7: detection resolution versus capture resolution -/

/-- C7 counterexample: for a 1280x720 camera video, the canvas sampled by
a detection tick has exactly the same dimensions as the capture canvas —
detection does not run at a capped, lower resolution — and the corners a
detection tick stores (and capture later hands to the rectifier) are the
approximation polygon exactly as produced, with no rescaling. -/
theorem detection_capture_same_resolution_cex :
    detectionCanvasDims ⟨1280, 720⟩ = captureCanvasDims ⟨1280, 720⟩ ∧
      (runTrace (fun _ _ => [⟨0, 0⟩, ⟨4, 0⟩, ⟨4, 3⟩, ⟨0, 3⟩])
          [Event.tick [⟨6000, 40⟩] [0]]).lastDetectedCorners =
        some [⟨0, 0⟩, ⟨4, 0⟩, ⟨4, 3⟩, ⟨0, 3⟩] := by
  refine ⟨rfl, ?_⟩
  refine of_decide_eq_true ?_
  with_unfolding_all rfl

/-- C7 (amended): per-tick detection samples the video at its native
resolution — the same dimensions used by the capture canvas — and detected
corner coordinates are passed to the rectifier unscaled: a successful
detection stores exactly its approximation polygon, which capture reads
as-is; the coordinates agree with the capture frame only because both
canvases share the video's dimensions. -/
theorem detection_native_resolution_and_unscaled_corners :
    (∀ v : VideoSource, detectionCanvasDims v = captureCanvasDims v) ∧
      ∀ (approxDP : Contour → ℚ → List Point) (tr : List Event)
        (cs : List Contour) (g : List ℕ) (q : List Point),
        detectPhotoEdgesBest approxDP cs = some q →
          (runTrace approxDP (tr ++ [Event.tick cs g])).lastDetectedCorners =
            some q := by
  constructor
  · intro v; rfl
  · intro approxDP tr cs g q h
    unfold runTrace
    rw [List.foldl_append]
    simp only [List.foldl_cons, List.foldl_nil, stepEvent]
    rw [h]

/-- Witness for C7 (amended) at a concrete video source and a concrete
single-tick trace. -/
theorem detection_native_resolution_witness :
    detectionCanvasDims ⟨1280, 720⟩ = captureCanvasDims ⟨1280, 720⟩ ∧
      (runTrace (fun _ _ => [⟨0, 0⟩, ⟨4, 0⟩, ⟨4, 3⟩, ⟨0, 3⟩])
          ([Event.stop] ++ [Event.tick [⟨6000, 40⟩] [0]])).lastDetectedCorners =
        some [⟨0, 0⟩, ⟨4, 0⟩, ⟨4, 3⟩, ⟨0, 3⟩] :=
  ⟨detection_native_resolution_and_unscaled_corners.1 _,
   detection_native_resolution_and_unscaled_corners.2 _ [Event.stop] _ [0] _
     (of_decide_eq_true (by with_unfolding_all rfl))⟩

/-! ## Claim C5: rectified output dimensions -/

/-- C5: for every quadrilateral in canonical corner order (top-left `s0`,
top-right `s1`, bottom-right `s2`, bottom-left `s3`), the rectified output
dimensions are width = max(Euclidean length of the top side, Euclidean
length of the bottom side) and height = max(Euclidean length of the left
side, Euclidean length of the right side), where sides join adjacent
canonical corners. -/
theorem output_dims_max_of_side_lengths (s0 s1 s2 s3 : Point) :
    applyPCOutputWidth s0 s1 s2 s3 = max (segLength s0 s1) (segLength s3 s2) ∧
      applyPCOutputHeight s0 s1 s2 s3 = max (segLength s0 s3) (segLength s1 s2) :=
  ⟨rfl, rfl⟩

/-! ## Claim C6: graceful fallback of perspective correction -/

/-- C6: whenever rectification cannot proceed — the vision library is
unavailable, the corner list does not contain exactly 4 points, or the
homography/warp chain fails (the code's try/catch on degenerate geometry,
modelled by the warp primitive returning none) — applyPerspectiveCorrection
returns the original unrectified frame unchanged, and the capture
operation still completes with that fallback image. -/
theorem perspective_fallback_returns_original (enabled cvReady : Bool)
    (warp : List Point → Canvas → Option Canvas) (canvas : Canvas)
    (corners : List Point) (s : DashState)
    (hc : s.lastDetectedCorners = some corners)
    (h : cvReady = false ∨ corners.length ≠ 4 ∨
      warp (sortCorners corners) canvas = none) :
    applyPerspectiveCorrection cvReady warp canvas corners = canvas ∧
      capturePhotoProcessed enabled cvReady warp canvas s = canvas := by
  have hmain : applyPerspectiveCorrection cvReady warp canvas corners = canvas := by
    unfold applyPerspectiveCorrection
    split_ifs with hif
    · rfl
    · rcases h with h | h | h
      · exact absurd (by simp [h]) hif
      · exact absurd (by simp [h]) hif
      · rw [h]
  refine ⟨hmain, ?_⟩
  unfold capturePhotoProcessed
  rw [hc]
  dsimp only
  by_cases he : (enabled && cvReady) = true
  · rw [if_pos he]
    exact hmain
  · rw [if_neg he]

/-- Witness for C6: a warp primitive that always fails (throws) makes
both the rectifier and the capture fall back to the original canvas. -/
theorem perspective_fallback_witness :
    applyPerspectiveCorrection true (fun _ _ => none) ⟨100, 50⟩
        [⟨0, 0⟩, ⟨1, 0⟩, ⟨1, 1⟩, ⟨0, 1⟩] = ⟨100, 50⟩ ∧
      capturePhotoProcessed true true (fun _ _ => none) ⟨100, 50⟩
        { initState with
            lastDetectedCorners := some [⟨0, 0⟩, ⟨1, 0⟩, ⟨1, 1⟩, ⟨0, 1⟩] } =
        ⟨100, 50⟩ :=
  perspective_fallback_returns_original true true _ _ _ _ rfl
    (Or.inr (Or.inr rfl))

end PhotoVault
